import Mathlib

/-!
Verification model of the Impala query coordinator
(`be/src/runtime/coordinator.h`).

The repository provides the coordinator's header (declarations and their
documentation comments); the member-function bodies live in a companion
`.cc` file that is not part of the sources. Every operation below is
therefore a shallow embedding modelled from the specification's
description of that operation, faithful to the header's declared
contracts. Lock-protected critical sections of the C++ code are
modelled as single atomic steps of a state machine; RPCs, condition
variables and profiles are modelled by explicit fields of the state.
-/

namespace Impala

/-- Modelled from the spec: `impala::Status` (common/status.h is not in the
sources). A status is OK, CANCELLED, or an error identified by a code. -/
inductive Status where
  | ok
  | cancelled
  | error (code : Nat)
deriving DecidableEq

/-- `Status::ok()`: whether the status carries no error. -/
def Status.isOk : Status → Bool
  | .ok => true
  | _ => false

/-- Modelled from the spec: the fields of `TReportExecStatusParams` that the
coordinator consumes in `UpdateFragmentExecStatus`: fragment-instance id,
done flag, status, accumulated error log, profile snapshot and (for INSERT
queries) partition row counts. -/
structure Report where
  instanceId : Nat
  rdone : Bool
  rstatus : Status
  errs : List Nat
  profile : Nat
  rows : List (Nat × Nat)
deriving DecidableEq

/-- Modelled from the spec: outcome of one `PlanFragmentExecutor::GetNext`
call on the root executor: a row batch, end of stream, or an error. -/
inductive ExecResult where
  | batch (n : Nat)
  | eos
  | err (st : Status)
deriving DecidableEq

/-- Result of a `GetNext` call: still blocked (the call has not returned),
or returned with an optional batch and a status. -/
inductive GetNextRes where
  | blocked
  | returned (batch : Option Nat) (st : Status)
deriving DecidableEq

/-- Modelled from the spec: `Coordinator::BackendExecState`, one record per
remote fragment instance: backend number, instance id, endpoint host,
fragment index, done flag, last reported status, error-log accumulator,
profile snapshot, and whether a cancel RPC has been sent to it. -/
structure BackendExecState where
  backendNum : Nat
  instanceId : Nat
  host : Nat
  fragmentIdx : Nat
  done : Bool
  lastStatus : Status
  errorLog : List Nat
  profile : Nat
  cancelRpcSent : Bool
deriving DecidableEq

/-- Modelled from the spec: the coordinator's mutable state. Fields mirror
the header's data members (`query_status_`, `returned_all_results_`,
`has_called_wait_`, `num_backends_`, `num_remaining_backends_`,
`num_scan_ranges_`, `backend_exec_states_`, `partition_row_counts_`, ...).
`cancelInitiated`, `executorCancelled`, `finalizeQueryCalled`, `filesMoved`,
`startRpcs`, `wfabCalls` and `statusesPassed` record externally observable
effects (CancelInternal having run, the local executor's cancel signal,
FinalizeQuery having run, file moves applied, start RPCs issued,
WaitForAllBackends invocations, and the arguments ever passed to
UpdateStatus). -/
structure CoordState where
  queryStatus : Status
  returnedAllResults : Bool
  hasCalledWait : Bool
  hasRootFragment : Bool
  needsFinalization : Bool
  numBackends : Nat
  numRemainingBackends : Nat
  numScanRanges : Nat
  backends : List BackendExecState
  partitionRowCounts : List (Nat × Nat)
  cancelInitiated : Bool
  executorCancelled : Bool
  finalizeQueryCalled : Bool
  filesMoved : Bool
  startRpcs : List Nat
  wfabCalls : Nat
  statusesPassed : List Status
deriving DecidableEq

/-- The coordinator state before `Exec` has populated anything. -/
def emptyCoordState : CoordState where
  queryStatus := .ok
  returnedAllResults := false
  hasCalledWait := false
  hasRootFragment := false
  needsFinalization := false
  numBackends := 0
  numRemainingBackends := 0
  numScanRanges := 0
  backends := []
  partitionRowCounts := []
  cancelInitiated := false
  executorCancelled := false
  finalizeQueryCalled := false
  filesMoved := false
  startRpcs := []
  wfabCalls := 0
  statusesPassed := []

/-- Update the first backend exec state whose instance id matches (the
header's `backend_exec_state_map_` maps each instance id to one state). -/
def updateBackends (iid : Nat) (f : BackendExecState → BackendExecState) :
    List BackendExecState → List BackendExecState
  | [] => []
  | b :: rest =>
    if b.instanceId == iid then f b :: rest else b :: updateBackends iid f rest

/-- Append reported error-log entries to a backend's error-log accumulator. -/
def appendErrLog (errs : List Nat) (b : BackendExecState) : BackendExecState :=
  { b with errorLog := b.errorLog ++ errs }

/-- Apply a (non-duplicate) status report to a backend exec state: replace
the cached profile and last status, append the error log, set the done flag. -/
def applyReport (r : Report) (b : BackendExecState) : BackendExecState :=
  { b with profile := r.profile, lastStatus := r.rstatus,
           errorLog := b.errorLog ++ r.errs, done := r.rdone }

/-- Add `v` rows to partition `k` of a partition-row-count map. -/
def addCount : List (Nat × Nat) → Nat → Nat → List (Nat × Nat)
  | [], k, v => [(k, v)]
  | (k', v') :: t, k, v =>
    if k' == k then (k', v' + v) :: t else (k', v') :: addCount t k v

/-- Union two partition-row-count maps, adding counts per partition key. -/
def mergeCounts : List (Nat × Nat) → List (Nat × Nat) → List (Nat × Nat)
  | acc, [] => acc
  | acc, (k, v) :: rest => mergeCounts (addCount acc k v) rest

/-- Mark one backend exec state during `CancelRemoteFragments`: a cancel
RPC is issued exactly to the backends that are not yet done. -/
def cancelMark (b : BackendExecState) : BackendExecState :=
  if b.done then b else { b with cancelRpcSent := true }

/-- Modelled from the spec: `Coordinator::CancelInternal` (body not in the
sources). With the coordinator lock held: signal cancellation to the local
root executor, and issue a cancel RPC to every backend that is not yet done
(`CancelRemoteFragments`). -/
def CancelInternal (s : CoordState) : CoordState :=
  { s with cancelInitiated := true,
           executorCancelled := true,
           backends := s.backends.map cancelMark }

/-- Modelled from the spec: `Coordinator::UpdateStatus` (body not in the
sources). Under the coordinator lock: if the query already returned all
results, or the incoming status is OK, or `query_status_` is already an
error, leave `query_status_` unchanged and return it; otherwise set
`query_status_` to the incoming error and call `CancelInternal`, returning
the new status. The ghost field `statusesPassed` records every status ever
passed in. -/
def UpdateStatus (s : CoordState) (st : Status) : CoordState × Status :=
  let s0 : CoordState := { s with statusesPassed := s.statusesPassed ++ [st] }
  if s.returnedAllResults || st.isOk || !s.queryStatus.isOk then
    (s0, s0.queryStatus)
  else
    (CancelInternal { s0 with queryStatus := st }, st)

/-- `Coordinator::GetStatus`: returns `query_status_`. -/
def GetStatus (s : CoordState) : Status := s.queryStatus

/-- Modelled from the spec: `Coordinator::Cancel` (body not in the sources).
Acquires the coordinator lock and calls `UpdateStatus(CANCELLED, null)`. -/
def Cancel (s : CoordState) : CoordState :=
  (UpdateStatus s .cancelled).1

/-- Modelled from the spec: `Coordinator::UpdateFragmentExecStatus` (body not
in the sources). Look up the backend exec state by fragment-instance id
(absent: stale report, state unchanged). If the backend is already done,
absorb the report, only appending its error log. Otherwise replace the
profile snapshot, append the error log, set the done flag; merge partition
row counts when the query has no root fragment; decrement
`num_remaining_backends_` when the report says done; and if the reported
status is an error, funnel it through `UpdateStatus`. -/
def UpdateFragmentExecStatus (s : CoordState) (r : Report) : CoordState :=
  match s.backends.find? (fun b => b.instanceId == r.instanceId) with
  | none => s
  | some b =>
    if b.done then
      { s with backends := updateBackends r.instanceId (appendErrLog r.errs) s.backends }
    else
      let s1 : CoordState := { s with
        backends := updateBackends r.instanceId (applyReport r) s.backends,
        partitionRowCounts :=
          if s.hasRootFragment then s.partitionRowCounts
          else mergeCounts s.partitionRowCounts r.rows,
        numRemainingBackends :=
          if r.rdone then s.numRemainingBackends - 1 else s.numRemainingBackends }
      if r.rstatus.isOk then s1 else (UpdateStatus s1 r.rstatus).1

/-- The all-done condition re-checked by threads blocked on
`backend_completion_cv_`: all backends reported done, or the query is in
error. -/
def allDoneOrError (s : CoordState) : Bool :=
  s.numRemainingBackends == 0 || !s.queryStatus.isOk

/-- Modelled from the spec: the blocking loop of
`Coordinator::WaitForAllBackends` (body not in the sources). Blocking on the
condition variable is modelled by consuming the queue `rs` of status reports
that arrive while blocked; the boolean result records whether the call
returned (condition reached) or is still blocked when the queue runs out. -/
def WaitForAllBackendsAux : CoordState → List Report → CoordState × Bool
  | s, [] => (s, allDoneOrError s)
  | s, r :: rest =>
    if allDoneOrError s then (s, true)
    else WaitForAllBackendsAux (UpdateFragmentExecStatus s r) rest

/-- Modelled from the spec: `Coordinator::WaitForAllBackends` (body not in
the sources): returns only when all backends have reported done or the query
is in error. The ghost counter `wfabCalls` records each invocation. -/
def WaitForAllBackends (s : CoordState) (rs : List Report) : CoordState × Bool :=
  WaitForAllBackendsAux { s with wfabCalls := s.wfabCalls + 1 } rs

/-- Modelled from the spec: `Coordinator::FinalizeQuery` (body not in the
sources): post-query cleanup, applying the file-move list when the query
needs finalization. The ghost flag `finalizeQueryCalled` records that it
ran. -/
def FinalizeQuery (s : CoordState) : CoordState :=
  { s with finalizeQueryCalled := true,
           filesMoved := s.filesMoved || s.needsFinalization }

/-- Modelled from the spec: `Coordinator::Wait` (body not in the sources).
Single-flighted by `wait_lock_`/`has_called_wait_`; subsequent calls return
the current `query_status_`. First call: with a root fragment, run the root
executor's blocking open (outcome `openRes`, funnelled through
`UpdateStatus`) and return without waiting for remote backends; without a
root fragment, block until all backends are done or the query is in error.
After either path, if the query needs finalization and succeeded, run
`FinalizeQuery`. `none` as returned status means the call is still
blocked. -/
def Wait (s : CoordState) (openRes : Status) (rs : List Report) :
    CoordState × Option Status :=
  if s.hasCalledWait then (s, some (GetStatus s))
  else
    let s0 : CoordState := { s with hasCalledWait := true }
    if s0.hasRootFragment then
      let s1 := (UpdateStatus s0 openRes).1
      let s2 := if s1.needsFinalization && s1.queryStatus.isOk then FinalizeQuery s1 else s1
      (s2, some (GetStatus s2))
    else
      let p := WaitForAllBackends s0 rs
      if p.2 then
        let s2 := if p.1.needsFinalization && p.1.queryStatus.isOk then FinalizeQuery p.1 else p.1
        (s2, some (GetStatus s2))
      else (p.1, none)

/-- Modelled from the spec: `Coordinator::GetNext` (body not in the
sources). Without a root fragment, block on the all-done condition and
return the query status with a null batch. With a root fragment: a non-null
batch from the root executor is returned directly; on end of stream, set
`returned_all_results_`, wait for all remaining backends, run
`FinalizeQuery` and return the final query status with a null batch; an
executor error is funnelled through `UpdateStatus` and the resulting status
returned. -/
def GetNext (s : CoordState) (r : ExecResult) (rs : List Report) :
    CoordState × GetNextRes :=
  if !s.hasRootFragment then
    let p := WaitForAllBackends s rs
    if p.2 then (p.1, .returned none (GetStatus p.1)) else (p.1, .blocked)
  else
    match r with
    | .batch n => (s, .returned (some n) Status.ok)
    | .eos =>
      let s1 : CoordState := { s with returnedAllResults := true }
      let p := WaitForAllBackends s1 rs
      if p.2 then
        let s3 := FinalizeQuery p.1
        (s3, .returned none (GetStatus s3))
      else (p.1, .blocked)
    | .err st =>
      let p := UpdateStatus s st
      (p.1, .returned none p.2)

/-- One serialized client/backend interaction with the coordinator after
`Exec`: a backend status report, a client `Cancel`, a `Wait`, or a
`GetNext` (carrying the root executor's outcome and the reports arriving
while blocked). -/
inductive Event where
  | report (r : Report)
  | cancel
  | wait (openRes : Status) (rs : List Report)
  | getNext (r : ExecResult) (rs : List Report)

/-- The coordinator state after one event. -/
def step (s : CoordState) : Event → CoordState
  | .report r => UpdateFragmentExecStatus s r
  | .cancel => Cancel s
  | .wait o rs => (Wait s o rs).1
  | .getNext r rs => (GetNext s r rs).1

/-- The coordinator state after a serialized sequence of events. -/
def run (s : CoordState) (tr : List Event) : CoordState := tr.foldl step s

/-- The coordinator state right after a successful `Exec`: the query status
is OK, no results returned yet, no cancellation initiated, and no status has
been passed to `UpdateStatus` yet. -/
def InitState (s : CoordState) : Prop :=
  s.queryStatus = .ok ∧ s.cancelInitiated = false ∧ s.statusesPassed = []

/-- Modelled from the spec: `TScanRangeLocations` — one scan range (its id),
its candidate replica locations as (host, volume id) pairs, and its byte
length. -/
structure TScanRangeLocations where
  scanRange : Nat
  locations : List (Nat × Nat)
  numBytes : Nat
deriving DecidableEq

/-- Modelled from the spec: the scan-range locations of one scan node of a
fragment (`per_node_scan_ranges` input). -/
structure ScanNodeInput where
  nodeId : Nat
  locations : List TScanRangeLocations
deriving DecidableEq

/-- Modelled from the spec: the parts of `TPlanFragment` the coordinator
consumes: whether the fragment is partitioned (an unpartitioned first
fragment is the coordinator/root fragment, and unpartitioned fragments
execute at the coordinator), whether it has a distributed data sink, its
scan nodes with their scan-range locations, and the index of the fragment
feeding its leftmost exchange node, if any. -/
structure TPlanFragment where
  partitioned : Bool
  hasSink : Bool
  scanNodes : List ScanNodeInput
  inputFragmentIdx : Option Nat
deriving DecidableEq

/-- Modelled from the spec: the parts of `TQueryExecRequest` the coordinator
consumes: the ordered fragment list and whether finalize params are set. -/
structure TQueryExecRequest where
  fragments : List TPlanFragment
  needsFinalization : Bool
deriving DecidableEq

/-- Whether the request has a coordinator (root) fragment: its first
fragment is unpartitioned. -/
def hasCoordinatorFragment (req : TQueryExecRequest) : Bool :=
  match req.fragments with
  | [] => false
  | f :: _ => !f.partitioned

/-- Whether any fragment of the request has a distributed data sink. -/
def hasDistributedSinks (req : TQueryExecRequest) : Bool :=
  req.fragments.any (·.hasSink)

/-- `PerNodeScanRanges`: map from scan-node id to the list of scan ranges
assigned to it (on one host). -/
abbrev PerNodeScanRanges := List (Nat × List Nat)

/-- `FragmentScanRangeAssignment`: map from host to its per-node assigned
scan ranges, for a single fragment. -/
abbrev FragmentScanRangeAssignment := List (Nat × PerNodeScanRanges)

/-- Append scan range `rng` to node `nodeId`'s list in a per-node map. -/
def addToNode (nodeId rng : Nat) : PerNodeScanRanges → PerNodeScanRanges
  | [] => [(nodeId, [rng])]
  | (n, rs) :: rest =>
    if n == nodeId then (n, rs ++ [rng]) :: rest
    else (n, rs) :: addToNode nodeId rng rest

/-- Record the assignment of scan range `rng` of node `nodeId` to `host`. -/
def addAssignment (host nodeId rng : Nat) :
    FragmentScanRangeAssignment → FragmentScanRangeAssignment
  | [] => [(host, [(nodeId, [rng])])]
  | (h, pns) :: rest =>
    if h == host then (h, addToNode nodeId rng pns) :: rest
    else (h, pns) :: addAssignment host nodeId rng rest

/-- All (node id, scan range) pairs recorded in a per-node map. -/
def nodeRangesList (pns : PerNodeScanRanges) : List (Nat × Nat) :=
  (pns.map (fun p => p.2.map (fun r => (p.1, r)))).flatten

/-- All (node id, scan range) pairs assigned across all hosts of a
fragment's assignment. -/
def allRanges (a : FragmentScanRangeAssignment) : List (Nat × Nat) :=
  (a.map (fun p => nodeRangesList p.2)).flatten

/-- The scan ranges assigned for one scan node, across all hosts. -/
def rangesForNode (a : FragmentScanRangeAssignment) (nodeId : Nat) : List Nat :=
  (allRanges a).filterMap (fun p => if p.1 == nodeId then some p.2 else none)

/-- Bytes assigned so far to a host during scan-range assignment. -/
def bytesOf (tbl : List (Nat × Nat)) (h : Nat) : Nat :=
  match tbl.find? (fun p => p.1 == h) with
  | some p => p.2
  | none => 0

/-- Add `len` bytes to `h`'s assigned-bytes entry. -/
def addBytes (h len : Nat) : List (Nat × Nat) → List (Nat × Nat)
  | [] => [(h, len)]
  | (h', v) :: rest =>
    if h' == h then (h', v + len) :: rest else (h', v) :: addBytes h len rest

/-- Modelled from the spec: the scheduler oracle's replica selection for one
scan range — among the candidate replica hosts, pick the one with the
fewest bytes assigned so far; ties broken by candidate order. Returns
`none` when the candidate list is empty (placement failure). -/
def chooseHost (tbl : List (Nat × Nat)) : List (Nat × Nat) → Option Nat
  | [] => none
  | (h, _) :: rest =>
    match chooseHost tbl rest with
    | none => some h
    | some h' => if bytesOf tbl h ≤ bytesOf tbl h' then some h else some h'

/-- Modelled from the spec: the per-node
`Coordinator::ComputeScanRangeAssignment` loop (body not in the sources).
For each scan-range location, pick exactly one host — the coordinator when
`execAtCoord` is set, otherwise the scheduler's min-assigned-bytes replica
— and accumulate the range into the fragment's assignment. Fails when a
range has no candidate replica. -/
def assignNode (coordHost : Nat) (execAtCoord : Bool) (nodeId : Nat) :
    List TScanRangeLocations → List (Nat × Nat) → FragmentScanRangeAssignment →
    Except Status (FragmentScanRangeAssignment × List (Nat × Nat))
  | [], tbl, a => .ok (a, tbl)
  | l :: rest, tbl, a =>
    match if execAtCoord then some coordHost else chooseHost tbl l.locations with
    | none => .error (.error 1)
    | some h =>
      assignNode coordHost execAtCoord nodeId rest
        (addBytes h l.numBytes tbl) (addAssignment h nodeId l.scanRange a)

/-- Modelled from the spec: scan-range assignment over all scan nodes of one
fragment; each node's assignment starts from a fresh per-host byte count. -/
def assignFragment (coordHost : Nat) (execAtCoord : Bool) :
    List ScanNodeInput → FragmentScanRangeAssignment →
    Except Status FragmentScanRangeAssignment
  | [], a => .ok a
  | n :: rest, a =>
    match assignNode coordHost execAtCoord n.nodeId n.locations [] a with
    | .error e => .error e
    | .ok p => assignFragment coordHost execAtCoord rest p.1

/-- Number of input scan ranges of one fragment. -/
def countFragmentRanges (f : TPlanFragment) : Nat :=
  (f.scanNodes.map (fun n => n.locations.length)).sum

/-- Modelled from the spec: `Coordinator::ComputeScanRangeAssignment` over
the whole request (body not in the sources): populates one
`FragmentScanRangeAssignment` per fragment (unpartitioned fragments are
assigned to the coordinator) and accumulates `num_scan_ranges_`. -/
def ComputeScanRangeAssignment (coordHost : Nat) :
    List TPlanFragment → Except Status (List FragmentScanRangeAssignment × Nat)
  | [] => .ok ([], 0)
  | f :: rest =>
    match assignFragment coordHost (!f.partitioned) f.scanNodes [] with
    | .error e => .error e
    | .ok a =>
      match ComputeScanRangeAssignment coordHost rest with
      | .error e => .error e
      | .ok p => .ok (a :: p.1, countFragmentRanges f + p.2)

/-- The (node id, scan range) pairs a list of scan nodes brings as input. -/
def taggedOf (nodes : List ScanNodeInput) : List (Nat × Nat) :=
  (nodes.map (fun n => n.locations.map (fun l => (n.nodeId, l.scanRange)))).flatten

/-- The (node id, scan range) pairs a fragment's scan nodes bring as input. -/
def taggedInput (f : TPlanFragment) : List (Nat × Nat) :=
  taggedOf f.scanNodes

/-- The input scan ranges of one scan node of a fragment. -/
def nodeInputRanges (f : TPlanFragment) (nodeId : Nat) : List Nat :=
  (f.scanNodes.map (fun n =>
    if n.nodeId == nodeId then n.locations.map (·.scanRange) else [])).flatten

/-- The hosts appearing in a fragment's scan-range assignment. -/
def hostsOfAssignment (a : FragmentScanRangeAssignment) : List Nat :=
  a.map (·.1)

/-- Modelled from the spec: `Coordinator::ComputeFragmentHosts` (body not in
the sources). An unpartitioned fragment (the root in particular) runs only
on the coordinator; a fragment rooted at a scan node inherits the hosts of
its scan-range assignment; a fragment whose leftmost input is an exchange
is co-located with the fragment feeding it. -/
def fragmentHostsGo (coordHost : Nat) :
    List (TPlanFragment × FragmentScanRangeAssignment) → List (List Nat) →
    List (List Nat)
  | [], done => done
  | (f, a) :: rest, done =>
    let hs :=
      if !f.partitioned then [coordHost]
      else if !f.scanNodes.isEmpty then (hostsOfAssignment a).dedup
      else match f.inputFragmentIdx with
        | some j => done.getD j [coordHost]
        | none => [coordHost]
    fragmentHostsGo coordHost rest (done ++ [hs])

/-- Modelled from the spec: per-fragment host lists (see `fragmentHostsGo`). -/
def ComputeFragmentHosts (coordHost : Nat) (frags : List TPlanFragment)
    (asgs : List FragmentScanRangeAssignment) : List (List Nat) :=
  fragmentHostsGo coordHost (frags.zip asgs) []

/-- Modelled from the spec: `Coordinator::FragmentExecParams` — the
execution backends of one fragment and the parallel vector of instance ids
(`hosts.size() == instance_ids.size()`). -/
structure FragmentExecParams where
  hosts : List Nat
  instanceIds : List Nat
deriving DecidableEq

/-- Assign dense, query-unique instance ids: one per host of each fragment. -/
def mkParams (nextId : Nat) : List (List Nat) → List FragmentExecParams × Nat
  | [] => ([], nextId)
  | hs :: rest =>
    let p := mkParams (nextId + hs.length) rest
    ({ hosts := hs, instanceIds := (List.range hs.length).map (fun k => nextId + k) } :: p.1,
     p.2)

/-- Modelled from the spec: `Coordinator::ComputeFragmentExecParams` (body
not in the sources): per-fragment exec params, and `num_backends_` — the
number of fragment instances executing on remote backends (all instances of
all fragments except the coordinator fragment). -/
def ComputeFragmentExecParams (hasCoord : Bool) (hostLists : List (List Nat)) :
    List FragmentExecParams × Nat :=
  let ps := (mkParams 0 hostLists).1
  let remote := if hasCoord then ps.drop 1 else ps
  (ps, (remote.map (fun p => p.instanceIds.length)).sum)

/-- One `BackendExecState` per (host, instance id) pair of one fragment,
with dense backend numbers starting at `bn`. -/
def mkStatesRow (bn fragIdx : Nat) : List (Nat × Nat) → List BackendExecState
  | [] => []
  | (h, iid) :: rest =>
    { backendNum := bn, instanceId := iid, host := h, fragmentIdx := fragIdx,
      done := false, lastStatus := .ok, errorLog := [], profile := 0,
      cancelRpcSent := false } :: mkStatesRow (bn + 1) fragIdx rest

/-- `BackendExecState`s for all instances of the given (remote) fragments. -/
def mkBackendStates (bn fragIdx : Nat) :
    List FragmentExecParams → List BackendExecState
  | [] => []
  | p :: rest =>
    mkStatesRow bn fragIdx (p.hosts.zip p.instanceIds) ++
      mkBackendStates (bn + (p.hosts.zip p.instanceIds).length) (fragIdx + 1) rest

/-- The coordinator state after `Exec`'s placement and dispatch phases:
per-fragment hosts and exec params are computed, one `BackendExecState`
exists per remote fragment instance, `num_backends_` and
`num_remaining_backends_` are set, and one start RPC was issued per backend
exec state. -/
def execOkState (coordHost : Nat) (req : TQueryExecRequest)
    (asgs : List FragmentScanRangeAssignment) (nScan : Nat) : CoordState :=
  let hostLists := ComputeFragmentHosts coordHost req.fragments asgs
  let hasCoord := hasCoordinatorFragment req
  let pp := ComputeFragmentExecParams hasCoord hostLists
  let remote := if hasCoord then pp.1.drop 1 else pp.1
  let backends := mkBackendStates 0 (if hasCoord then 1 else 0) remote
  { emptyCoordState with
    hasRootFragment := hasCoord,
    needsFinalization := req.needsFinalization,
    numBackends := pp.2,
    numRemainingBackends := pp.2,
    numScanRanges := nScan,
    backends := backends,
    startRpcs := backends.map (·.instanceId) }

/-- Modelled from the spec: `Coordinator::Exec` (body not in the sources).
A request with neither a coordinator fragment nor distributed sinks is
rejected before any RPC is issued. Otherwise: compute the scan-range
assignment (aborting before any RPC on placement failure), build the
post-dispatch state `execOkState`, and funnel each dispatch outcome in
`dispatchResults` through `UpdateStatus`. Returns the resulting query
status and state. -/
def Exec (coordHost : Nat) (req : TQueryExecRequest)
    (dispatchResults : List Status) : Status × CoordState :=
  if !(hasCoordinatorFragment req) && !(hasDistributedSinks req) then
    (Status.error 2, emptyCoordState)
  else
    match ComputeScanRangeAssignment coordHost req.fragments with
    | .error e => (e, emptyCoordState)
    | .ok q =>
      let s1 := dispatchResults.foldl (fun s st => (UpdateStatus s st).1)
        (execOkState coordHost req q.1 q.2)
      (s1.queryStatus, s1)

lemma Status.isOk_true_iff (st : Status) : st.isOk = true ↔ st = .ok := by
  cases st <;> simp [Status.isOk]

lemma Status.isOk_false_iff (st : Status) : st.isOk = false ↔ st ≠ .ok := by
  cases st <;> simp [Status.isOk]

lemma find?_concat_of_some {l : List Status} {p : Status → Bool} {a x : Status}
    (h : l.find? p = some a) : (l ++ [x]).find? p = some a := by
  simp [List.find?_append, h]

lemma find?_concat_of_none {l : List Status} {p : Status → Bool} {x : Status}
    (h : l.find? p = none) : (l ++ [x]).find? p = List.find? p [x] := by
  simp [List.find?_append, h]

@[simp] lemma length_updateBackends (iid : Nat) (f : BackendExecState → BackendExecState)
    (bs : List BackendExecState) : (updateBackends iid f bs).length = bs.length := by
  induction bs with
  | nil => rfl
  | cons a rest ih => by_cases h : a.instanceId == iid <;> simp [updateBackends, h, ih]

@[simp] lemma updateStatus_frame (s : CoordState) (st : Status) :
    ((UpdateStatus s st).1.returnedAllResults = s.returnedAllResults ∧
     (UpdateStatus s st).1.hasCalledWait = s.hasCalledWait ∧
     (UpdateStatus s st).1.hasRootFragment = s.hasRootFragment ∧
     (UpdateStatus s st).1.needsFinalization = s.needsFinalization ∧
     (UpdateStatus s st).1.numBackends = s.numBackends ∧
     (UpdateStatus s st).1.numRemainingBackends = s.numRemainingBackends ∧
     (UpdateStatus s st).1.backends.length = s.backends.length ∧
     (UpdateStatus s st).1.wfabCalls = s.wfabCalls ∧
     (UpdateStatus s st).1.finalizeQueryCalled = s.finalizeQueryCalled) := by
  unfold UpdateStatus CancelInternal
  split <;> simp

@[simp] lemma ufes_frame (s : CoordState) (r : Report) :
    ((UpdateFragmentExecStatus s r).returnedAllResults = s.returnedAllResults ∧
     (UpdateFragmentExecStatus s r).hasCalledWait = s.hasCalledWait ∧
     (UpdateFragmentExecStatus s r).hasRootFragment = s.hasRootFragment ∧
     (UpdateFragmentExecStatus s r).needsFinalization = s.needsFinalization ∧
     (UpdateFragmentExecStatus s r).numBackends = s.numBackends ∧
     (UpdateFragmentExecStatus s r).backends.length = s.backends.length ∧
     (UpdateFragmentExecStatus s r).wfabCalls = s.wfabCalls ∧
     (UpdateFragmentExecStatus s r).finalizeQueryCalled = s.finalizeQueryCalled) := by
  unfold UpdateFragmentExecStatus
  split
  · simp
  · split
    · simp
    · split_ifs <;> simp

lemma wfabAux_frame (s : CoordState) (rs : List Report) :
    ((WaitForAllBackendsAux s rs).1.hasCalledWait = s.hasCalledWait ∧
     (WaitForAllBackendsAux s rs).1.numBackends = s.numBackends ∧
     (WaitForAllBackendsAux s rs).1.backends.length = s.backends.length ∧
     (WaitForAllBackendsAux s rs).1.wfabCalls = s.wfabCalls) := by
  induction rs generalizing s with
  | nil => simp [WaitForAllBackendsAux]
  | cons r rest ih =>
    unfold WaitForAllBackendsAux
    split
    · simp
    · have h := ih (UpdateFragmentExecStatus s r)
      have h2 := ufes_frame s r
      exact ⟨h.1.trans h2.2.1, h.2.1.trans h2.2.2.2.2.1,
             h.2.2.1.trans h2.2.2.2.2.2.1, h.2.2.2.trans h2.2.2.2.2.2.2.1⟩

lemma updateStatus_queryStatus_of_error (s : CoordState) (st : Status)
    (h : s.queryStatus ≠ .ok) : (UpdateStatus s st).1.queryStatus = s.queryStatus := by
  have hb : s.queryStatus.isOk = false := (Status.isOk_false_iff _).mpr h
  unfold UpdateStatus
  simp [hb]

lemma ufes_queryStatus_of_error (s : CoordState) (r : Report)
    (h : s.queryStatus ≠ .ok) :
    (UpdateFragmentExecStatus s r).queryStatus = s.queryStatus := by
  unfold UpdateFragmentExecStatus
  split
  · rfl
  · split
    · rfl
    · split_ifs <;>
        first
          | rfl
          | exact updateStatus_queryStatus_of_error _ _ h

lemma wfabAux_queryStatus_of_error (s : CoordState) (rs : List Report)
    (h : s.queryStatus ≠ .ok) :
    (WaitForAllBackendsAux s rs).1.queryStatus = s.queryStatus := by
  induction rs generalizing s with
  | nil => rfl
  | cons r rest ih =>
    unfold WaitForAllBackendsAux
    split
    · rfl
    · rw [ih _ (by rw [ufes_queryStatus_of_error s r h]; exact h),
          ufes_queryStatus_of_error s r h]

lemma wfab_queryStatus_of_error (s : CoordState) (rs : List Report)
    (h : s.queryStatus ≠ .ok) :
    (WaitForAllBackends s rs).1.queryStatus = s.queryStatus := by
  unfold WaitForAllBackends
  exact wfabAux_queryStatus_of_error _ rs h

lemma step_queryStatus_of_error (s : CoordState) (e : Event)
    (h : s.queryStatus ≠ .ok) : (step s e).queryStatus = s.queryStatus := by
  cases e with
  | report r => exact ufes_queryStatus_of_error s r h
  | cancel => exact updateStatus_queryStatus_of_error s _ h
  | wait o rs =>
    show (Wait s o rs).1.queryStatus = s.queryStatus
    unfold Wait
    dsimp only
    split_ifs <;>
      first
        | rfl
        | exact updateStatus_queryStatus_of_error _ _ h
        | exact wfab_queryStatus_of_error _ rs h
  | getNext r rs =>
    show (GetNext s r rs).1.queryStatus = s.queryStatus
    cases r <;>
      · unfold GetNext
        dsimp only
        split_ifs <;>
          first
            | rfl
            | exact updateStatus_queryStatus_of_error _ _ h
            | exact wfab_queryStatus_of_error _ rs h

lemma run_queryStatus_of_error (s : CoordState) (tr : List Event)
    (h : s.queryStatus ≠ .ok) : (run s tr).queryStatus = s.queryStatus := by
  induction tr generalizing s with
  | nil => rfl
  | cons e rest ih =>
    show (run (step s e) rest).queryStatus = s.queryStatus
    rw [ih _ (by rw [step_queryStatus_of_error s e h]; exact h),
        step_queryStatus_of_error s e h]

/-- First-error invariant: `query_status_` is OK — and then either no error
was ever passed to `UpdateStatus` or the query had already returned all
results — or it equals the first non-OK status ever passed to
`UpdateStatus`. -/
def StatusInv (s : CoordState) : Prop :=
  (s.queryStatus = .ok →
    (s.statusesPassed.find? (fun st => !st.isOk) = none ∨ s.returnedAllResults = true)) ∧
  (s.queryStatus ≠ .ok →
    s.statusesPassed.find? (fun st => !st.isOk) = some s.queryStatus)

/-- Cancellation invariant: `query_status_` is non-OK exactly when
`CancelInternal` has run, and `CancelInternal` cancelled the local executor
and sent a cancel RPC to every backend that was not yet done. -/
def CancelInv (s : CoordState) : Prop :=
  (s.queryStatus = .ok ↔ s.cancelInitiated = false) ∧
  (s.cancelInitiated = true →
    s.executorCancelled = true ∧
    ∀ b ∈ s.backends, b.done = true ∨ b.cancelRpcSent = true)

/-- The coordinator's global invariant. -/
def Inv (s : CoordState) : Prop := StatusInv s ∧ CancelInv s

lemma forall_updateBackends_of_pres {P : BackendExecState → Prop}
    {bs : List BackendExecState} {iid : Nat}
    {f : BackendExecState → BackendExecState}
    (hP : ∀ x ∈ bs, P x) (hpres : ∀ x, P x → P (f x)) :
    ∀ x ∈ updateBackends iid f bs, P x := by
  induction bs with
  | nil => simp [updateBackends]
  | cons a rest ih =>
    intro x hx
    by_cases hai : a.instanceId == iid
    · rw [updateBackends, if_pos hai] at hx
      rcases List.mem_cons.mp hx with hx | hx
      · exact hx ▸ hpres a (hP a (by simp))
      · exact hP x (List.mem_cons_of_mem _ hx)
    · rw [updateBackends, if_neg hai] at hx
      rcases List.mem_cons.mp hx with hx | hx
      · exact hx ▸ hP a (by simp)
      · exact ih (fun y hy => hP y (List.mem_cons_of_mem _ hy)) x hx

lemma find?_iid_cons_pos {a : BackendExecState} (rest : List BackendExecState)
    {iid : Nat} (h : (a.instanceId == iid) = true) :
    List.find? (fun x => x.instanceId == iid) (a :: rest) = some a := by
  rw [List.find?_cons]
  simp [h]

lemma find?_iid_cons_neg {a : BackendExecState} (rest : List BackendExecState)
    {iid : Nat} (h : (a.instanceId == iid) = false) :
    List.find? (fun x => x.instanceId == iid) (a :: rest) =
      List.find? (fun x => x.instanceId == iid) rest := by
  rw [List.find?_cons]
  simp [h]

lemma forall_updateBackends_find {P : BackendExecState → Prop}
    {bs : List BackendExecState} {iid : Nat}
    {f : BackendExecState → BackendExecState} {b : BackendExecState}
    (hP : ∀ x ∈ bs, P x)
    (hb : bs.find? (fun x => x.instanceId == iid) = some b)
    (hfb : P (f b)) : ∀ x ∈ updateBackends iid f bs, P x := by
  induction bs with
  | nil => simp [updateBackends]
  | cons a rest ih =>
    intro x hx
    by_cases hai : a.instanceId == iid
    · rw [find?_iid_cons_pos rest hai] at hb
      injection hb with hb
      rw [updateBackends, if_pos hai] at hx
      rcases List.mem_cons.mp hx with hx | hx
      · subst hb
        exact hx ▸ hfb
      · exact hP x (List.mem_cons_of_mem _ hx)
    · rw [find?_iid_cons_neg rest (by simpa using hai)] at hb
      rw [updateBackends, if_neg hai] at hx
      rcases List.mem_cons.mp hx with hx | hx
      · exact hx ▸ hP a (by simp)
      · exact ih (fun y hy => hP y (List.mem_cons_of_mem _ hy)) hb x hx

lemma find?_updateBackends {bs : List BackendExecState} {iid : Nat}
    {b : BackendExecState} (f : BackendExecState → BackendExecState)
    (hb : bs.find? (fun x => x.instanceId == iid) = some b)
    (hf : (f b).instanceId = b.instanceId) :
    (updateBackends iid f bs).find? (fun x => x.instanceId == iid) = some (f b) := by
  induction bs with
  | nil => simp at hb
  | cons a rest ih =>
    by_cases hai : a.instanceId == iid
    · rw [find?_iid_cons_pos rest hai] at hb
      injection hb with hb
      subst hb
      rw [updateBackends, if_pos hai]
      exact find?_iid_cons_pos rest (by rw [hf]; exact hai)
    · rw [find?_iid_cons_neg rest (by simpa using hai)] at hb
      rw [updateBackends, if_neg hai,
          find?_iid_cons_neg (updateBackends iid f rest) (by simpa using hai)]
      exact ih hb

lemma inv_updateStatus (s : CoordState) (st : Status) (h : Inv s) :
    Inv (UpdateStatus s st).1 := by
  obtain ⟨⟨hs1, hs2⟩, hc1, hc2⟩ := h
  unfold UpdateStatus CancelInternal
  dsimp only
  split_ifs with hcond
  · refine ⟨⟨fun hq => ?_, fun hq => find?_concat_of_some (hs2 hq)⟩, ⟨hc1, hc2⟩⟩
    rcases Bool.or_eq_true_iff.mp hcond with hc | hc
    · rcases Bool.or_eq_true_iff.mp hc with hc | hc
      · exact Or.inr hc
      · rcases hs1 hq with hn | hr
        · refine Or.inl ?_
          rw [find?_concat_of_none hn, List.find?_cons]
          simp [hc]
        · exact Or.inr hr
    · exfalso
      rw [hq] at hc
      simp [Status.isOk] at hc
  · simp only [Bool.or_eq_true, not_or, Bool.not_eq_true] at hcond
    obtain ⟨⟨hrar, hstok⟩, hqok⟩ := hcond
    have hq : s.queryStatus = .ok :=
      (Status.isOk_true_iff _).mp (by simpa using hqok)
    have hst : st ≠ .ok := (Status.isOk_false_iff _).mp hstok
    have hnone : s.statusesPassed.find? (fun x => !x.isOk) = none := by
      rcases hs1 hq with hn | hr
      · exact hn
      · rw [hr] at hrar
        simp at hrar
    constructor
    · constructor
      · intro hq'
        exact absurd hq' hst
      · intro _
        rw [find?_concat_of_none hnone, List.find?_cons]
        simp [hstok]
    · constructor
      · exact ⟨fun hq' => absurd hq' hst, by simp⟩
      · intro _
        refine ⟨rfl, ?_⟩
        intro b hbmem
        rcases List.mem_map.mp hbmem with ⟨a, _, ha⟩
        by_cases hd : a.done
        · rw [← ha]
          simp [cancelMark, hd]
        · rw [← ha]
          simp [cancelMark, hd]

lemma inv_ufes (s : CoordState) (r : Report) (h : Inv s) :
    Inv (UpdateFragmentExecStatus s r) := by
  obtain ⟨hS, hc1, hc2⟩ := h
  unfold UpdateFragmentExecStatus
  split
  · exact ⟨hS, hc1, hc2⟩
  case h_2 b hb =>
    by_cases hdone : b.done = true
    · rw [if_pos hdone]
      refine ⟨hS, hc1, fun hc => ⟨(hc2 hc).1, ?_⟩⟩
      exact forall_updateBackends_of_pres (hc2 hc).2
        (fun x hx => by simpa [appendErrLog] using hx)
    · rw [if_neg hdone]
      have hinv1 : Inv { s with
          backends := updateBackends r.instanceId (applyReport r) s.backends,
          partitionRowCounts :=
            if s.hasRootFragment then s.partitionRowCounts
            else mergeCounts s.partitionRowCounts r.rows,
          numRemainingBackends :=
            if r.rdone then s.numRemainingBackends - 1
            else s.numRemainingBackends } := by
        refine ⟨hS, hc1, fun hc => ⟨(hc2 hc).1, ?_⟩⟩
        refine forall_updateBackends_find (hc2 hc).2 hb ?_
        rcases (hc2 hc).2 b (List.mem_of_find?_eq_some hb) with hd | hr
        · exact absurd hd hdone
        · exact Or.inr (by simpa [applyReport] using hr)
      dsimp only
      split
      · exact hinv1
      · exact inv_updateStatus _ _ hinv1

lemma inv_set_rar {s : CoordState} (h : Inv s) :
    Inv { s with returnedAllResults := true } := by
  obtain ⟨⟨h1, h2⟩, hC⟩ := h
  exact ⟨⟨fun _ => Or.inr rfl, fun hq => h2 hq⟩, hC⟩

lemma inv_wfabAux (s : CoordState) (rs : List Report) (h : Inv s) :
    Inv (WaitForAllBackendsAux s rs).1 := by
  induction rs generalizing s with
  | nil => exact h
  | cons r rest ih =>
    unfold WaitForAllBackendsAux
    split
    · exact h
    · exact ih _ (inv_ufes _ _ h)

lemma inv_wfab (s : CoordState) (rs : List Report) (h : Inv s) :
    Inv (WaitForAllBackends s rs).1 := by
  unfold WaitForAllBackends
  exact inv_wfabAux _ rs h

lemma inv_step (s : CoordState) (e : Event) (h : Inv s) : Inv (step s e) := by
  cases e with
  | report r => exact inv_ufes s r h
  | cancel => exact inv_updateStatus s _ h
  | wait o rs =>
    show Inv (Wait s o rs).1
    unfold Wait
    dsimp only
    split_ifs <;>
      first
        | exact h
        | exact inv_updateStatus _ o h
        | exact inv_wfab _ rs h
  | getNext r rs =>
    show Inv (GetNext s r rs).1
    cases r <;>
      · unfold GetNext
        dsimp only
        split_ifs <;>
          first
            | exact h
            | exact inv_updateStatus _ _ h
            | exact inv_wfab _ rs h
            | exact inv_wfab _ rs (inv_set_rar h)

lemma inv_run (s : CoordState) (tr : List Event) (h : Inv s) : Inv (run s tr) := by
  induction tr generalizing s with
  | nil => exact h
  | cons e rest ih => exact ih _ (inv_step s e h)

lemma initState_inv {s : CoordState} (h : InitState s) : Inv s := by
  obtain ⟨h1, h2, h3⟩ := h
  refine ⟨⟨fun _ => Or.inl (by rw [h3]; rfl), fun hq => absurd h1 hq⟩,
          ⟨⟨fun _ => h2, fun _ => h1⟩, fun hc => ?_⟩⟩
  rw [h2] at hc
  simp at hc

@[simp] lemma wfab_hasCalledWait (s : CoordState) (rs : List Report) :
    (WaitForAllBackends s rs).1.hasCalledWait = s.hasCalledWait := by
  unfold WaitForAllBackends
  exact (wfabAux_frame _ rs).1

@[simp] lemma wfab_numBackends (s : CoordState) (rs : List Report) :
    (WaitForAllBackends s rs).1.numBackends = s.numBackends := by
  unfold WaitForAllBackends
  exact (wfabAux_frame _ rs).2.1

@[simp] lemma wfab_backends_length (s : CoordState) (rs : List Report) :
    (WaitForAllBackends s rs).1.backends.length = s.backends.length := by
  unfold WaitForAllBackends
  exact (wfabAux_frame _ rs).2.2.1

@[simp] lemma wfab_wfabCalls (s : CoordState) (rs : List Report) :
    (WaitForAllBackends s rs).1.wfabCalls = s.wfabCalls + 1 := by
  unfold WaitForAllBackends
  exact (wfabAux_frame _ rs).2.2.2

lemma step_hasCalledWait (s : CoordState) (e : Event)
    (h : s.hasCalledWait = true) : (step s e).hasCalledWait = true := by
  cases e with
  | report r =>
    show (UpdateFragmentExecStatus s r).hasCalledWait = true
    rw [(ufes_frame s r).2.1]
    exact h
  | cancel =>
    show (UpdateStatus s _).1.hasCalledWait = true
    simp [h]
  | wait o rs =>
    show (Wait s o rs).1.hasCalledWait = true
    unfold Wait
    rw [if_pos h]
    exact h
  | getNext r rs =>
    show (GetNext s r rs).1.hasCalledWait = true
    cases r <;>
      · unfold GetNext
        dsimp only
        split_ifs <;> simp [FinalizeQuery, h]

lemma wait_returns_hasCalledWait {s : CoordState} {o : Status} {rs : List Report}
    {s' : CoordState} {st : Status} (h : Wait s o rs = (s', some st)) :
    s'.hasCalledWait = true := by
  by_cases hw : s.hasCalledWait = true
  · unfold Wait at h
    rw [if_pos hw] at h
    injection h with h1 _
    rw [← h1]
    exact hw
  · unfold Wait at h
    rw [if_neg hw] at h
    dsimp only at h
    split_ifs at h <;>
      · injection h with h1 _
        rw [← h1]
        simp [FinalizeQuery]

/-- C1: query_status_ is a one-shot cell. In every serialized execution
from a post-Exec state, it is either OK or the first non-OK status ever
passed to UpdateStatus (into which every error report, Cancel's CANCELLED
and every local-executor error funnel), and once non-OK it never changes
under any further error report, Cancel call, or local-executor error. -/
theorem first_error_wins (s0 : CoordState) (tr : List Event) (h : InitState s0) :
    ((run s0 tr).queryStatus = Status.ok ∨
      (run s0 tr).statusesPassed.find? (fun st => !st.isOk) =
        some (run s0 tr).queryStatus) ∧
    ∀ tr', (run s0 tr).queryStatus ≠ Status.ok →
      (run (run s0 tr) tr').queryStatus = (run s0 tr).queryStatus := by
  have hinv := inv_run s0 tr (initState_inv h)
  constructor
  · by_cases hq : (run s0 tr).queryStatus = Status.ok
    · exact Or.inl hq
    · exact Or.inr (hinv.1.2 hq)
  · intro tr' hq
    exact run_queryStatus_of_error _ tr' hq

theorem first_error_wins_witness :
    InitState emptyCoordState ∧
    (((run emptyCoordState [Event.cancel]).queryStatus = Status.ok ∨
      (run emptyCoordState [Event.cancel]).statusesPassed.find? (fun st => !st.isOk) =
        some (run emptyCoordState [Event.cancel]).queryStatus) ∧
     ∀ tr', (run emptyCoordState [Event.cancel]).queryStatus ≠ Status.ok →
       (run (run emptyCoordState [Event.cancel]) tr').queryStatus =
         (run emptyCoordState [Event.cancel]).queryStatus) :=
  ⟨⟨rfl, rfl, rfl⟩, first_error_wins emptyCoordState [Event.cancel] ⟨rfl, rfl, rfl⟩⟩

/-- C2: cancellation atomicity. Each step is one lock-protected critical
section, so in every observable state reachable from a post-Exec state:
query_status_ is non-OK exactly when CancelInternal has run, and when it
has run the local executor was cancelled and a cancel RPC was issued to
every backend that was not yet done. -/
theorem cancellation_atomicity (s0 : CoordState) (tr : List Event)
    (h : InitState s0) :
    ((run s0 tr).queryStatus ≠ Status.ok ↔ (run s0 tr).cancelInitiated = true) ∧
    ((run s0 tr).cancelInitiated = true →
      (run s0 tr).executorCancelled = true ∧
      ∀ b ∈ (run s0 tr).backends, b.done = true ∨ b.cancelRpcSent = true) := by
  have hinv := inv_run s0 tr (initState_inv h)
  refine ⟨⟨fun hq => ?_, fun hc hq => ?_⟩, hinv.2.2⟩
  · cases hc : (run s0 tr).cancelInitiated
    · exact absurd (hinv.2.1.mpr hc) hq
    · rfl
  · rw [hinv.2.1.mp hq] at hc
    simp at hc

theorem cancellation_atomicity_witness :
    InitState emptyCoordState ∧
    (((run emptyCoordState [Event.getNext (ExecResult.err (Status.error 5)) []]).queryStatus
        ≠ Status.ok ↔
      (run emptyCoordState [Event.getNext (ExecResult.err (Status.error 5)) []]).cancelInitiated
        = true) ∧
     ((run emptyCoordState [Event.getNext (ExecResult.err (Status.error 5)) []]).cancelInitiated
        = true →
      (run emptyCoordState [Event.getNext (ExecResult.err (Status.error 5)) []]).executorCancelled
        = true ∧
      ∀ b ∈ (run emptyCoordState
          [Event.getNext (ExecResult.err (Status.error 5)) []]).backends,
        b.done = true ∨ b.cancelRpcSent = true)) :=
  ⟨⟨rfl, rfl, rfl⟩, cancellation_atomicity emptyCoordState
    [Event.getNext (ExecResult.err (Status.error 5)) []] ⟨rfl, rfl, rfl⟩⟩

/-- C7: Wait idempotence. Once `has_called_wait_` is set, every further
Wait call performs no work and returns the current query_status_; every
returning Wait leaves `has_called_wait_` set; and no operation ever clears
it. Hence N Wait calls behave as one call followed by N-1 reads of
query_status_. -/
theorem wait_idempotent :
    (∀ (s : CoordState) (o : Status) (rs : List Report),
        s.hasCalledWait = true → Wait s o rs = (s, some s.queryStatus)) ∧
    (∀ (s : CoordState) (o : Status) (rs : List Report)
        (s' : CoordState) (st : Status),
        Wait s o rs = (s', some st) → s'.hasCalledWait = true) ∧
    (∀ (s : CoordState) (e : Event), s.hasCalledWait = true →
        (step s e).hasCalledWait = true) := by
  refine ⟨fun s o rs h => ?_, fun s o rs s' st h => wait_returns_hasCalledWait h,
          step_hasCalledWait⟩
  unfold Wait
  rw [if_pos h]
  rfl

theorem wait_idempotent_witness :
    ({ emptyCoordState with hasCalledWait := true } : CoordState).hasCalledWait
      = true ∧
    Wait { emptyCoordState with hasCalledWait := true } Status.ok [] =
      ({ emptyCoordState with hasCalledWait := true }, some Status.ok) :=
  ⟨rfl, wait_idempotent.1 { emptyCoordState with hasCalledWait := true }
    Status.ok [] rfl⟩

@[simp] lemma cancelMark_instanceId (x : BackendExecState) :
    (cancelMark x).instanceId = x.instanceId := by
  unfold cancelMark
  split <;> rfl

@[simp] lemma cancelMark_done (x : BackendExecState) :
    (cancelMark x).done = x.done := by
  unfold cancelMark
  split
  · rfl
  · simp_all

@[simp] lemma cancelMark_errorLog (x : BackendExecState) :
    (cancelMark x).errorLog = x.errorLog := by
  unfold cancelMark
  split <;> rfl

lemma find?_map_cancelMark (bs : List BackendExecState) (iid : Nat) :
    (bs.map cancelMark).find? (fun x => x.instanceId == iid) =
      Option.map cancelMark (bs.find? (fun x => x.instanceId == iid)) := by
  induction bs with
  | nil => rfl
  | cons a rest ih =>
    by_cases hai : (a.instanceId == iid) = true
    · rw [List.map_cons, find?_iid_cons_pos rest hai,
          find?_iid_cons_pos (rest.map cancelMark) (by simpa using hai)]
      rfl
    · have hai' : (a.instanceId == iid) = false := by simpa using hai
      rw [List.map_cons, find?_iid_cons_neg rest hai',
          find?_iid_cons_neg (rest.map cancelMark) (by simpa using hai'), ih]

lemma ufes_done_eq {s : CoordState} {r : Report} {b : BackendExecState}
    (hb : s.backends.find? (fun x => x.instanceId == r.instanceId) = some b)
    (hdone : b.done = true) :
    UpdateFragmentExecStatus s r =
      { s with backends :=
          updateBackends r.instanceId (appendErrLog r.errs) s.backends } := by
  unfold UpdateFragmentExecStatus
  simp only [hb]
  rw [if_pos hdone]

lemma ufes_find_after_done {s : CoordState} {r : Report} {b : BackendExecState}
    (hb : s.backends.find? (fun x => x.instanceId == r.instanceId) = some b)
    (hdone : b.done = true) :
    (UpdateFragmentExecStatus s r).backends.find?
        (fun x => x.instanceId == r.instanceId) = some (appendErrLog r.errs b) := by
  rw [ufes_done_eq hb hdone]
  exact find?_updateBackends _ hb rfl

lemma ufes_numRemaining_of_notdone {s : CoordState} {r : Report}
    {b : BackendExecState}
    (hb : s.backends.find? (fun x => x.instanceId == r.instanceId) = some b)
    (hdone : b.done = false) (hrdone : r.rdone = true) :
    (UpdateFragmentExecStatus s r).numRemainingBackends
      = s.numRemainingBackends - 1 := by
  unfold UpdateFragmentExecStatus
  simp only [hb]
  rw [if_neg (by simp [hdone])]
  simp only [hrdone, if_true]
  by_cases hst : r.rstatus.isOk = true
  · rw [if_pos hst]
  · rw [if_neg hst]
    simp

lemma ufes_find_after {s : CoordState} {r : Report} {b : BackendExecState}
    (hb : s.backends.find? (fun x => x.instanceId == r.instanceId) = some b)
    (hdone : b.done = false) :
    ∃ b', (UpdateFragmentExecStatus s r).backends.find?
        (fun x => x.instanceId == r.instanceId) = some b' ∧
      b'.done = r.rdone ∧ b'.errorLog = b.errorLog ++ r.errs := by
  have hup := find?_updateBackends (applyReport r) hb rfl
  unfold UpdateFragmentExecStatus
  simp only [hb]
  rw [if_neg (by simp [hdone])]
  by_cases hst : r.rstatus.isOk = true
  · rw [if_pos hst]
    exact ⟨applyReport r b, hup, rfl, rfl⟩
  · rw [if_neg hst]
    unfold UpdateStatus CancelInternal
    dsimp only
    split_ifs <;>
      first
        | exact ⟨applyReport r b, hup, rfl, rfl⟩
        | (refine ⟨cancelMark (applyReport r b), ?_, by simp [applyReport],
             by simp [applyReport]⟩
           rw [find?_map_cancelMark, hup]
           rfl)

lemma updateStatus_of_rar {s : CoordState} (st : Status)
    (hrar : s.returnedAllResults = true) :
    (UpdateStatus s st).1 =
      { s with statusesPassed := s.statusesPassed ++ [st] } := by
  unfold UpdateStatus
  dsimp only
  rw [if_pos (by simp [hrar])]

lemma ufes_rar_preserve {s : CoordState} (r : Report)
    (hrar : s.returnedAllResults = true) :
    (UpdateFragmentExecStatus s r).queryStatus = s.queryStatus ∧
    (UpdateFragmentExecStatus s r).cancelInitiated = s.cancelInitiated := by
  unfold UpdateFragmentExecStatus
  split
  · exact ⟨rfl, rfl⟩
  · split_ifs <;>
      first
        | exact ⟨rfl, rfl⟩
        | (rw [updateStatus_of_rar _ (by simpa using hrar)]
           exact ⟨rfl, rfl⟩)

/-- C5: late-report absorption. A status report for a backend whose done
flag is already set changes the coordinator state only by appending the
report's error log to that backend's error log; in particular a backend
reporting done twice decrements `num_remaining_backends_` exactly once. -/
theorem late_report_absorption :
    (∀ (s : CoordState) (r : Report) (b : BackendExecState),
        s.backends.find? (fun x => x.instanceId == r.instanceId) = some b →
        b.done = true →
        UpdateFragmentExecStatus s r =
          { s with backends :=
              updateBackends r.instanceId (appendErrLog r.errs) s.backends }) ∧
    (∀ (s : CoordState) (r : Report) (b : BackendExecState),
        s.backends.find? (fun x => x.instanceId == r.instanceId) = some b →
        b.done = false → r.rdone = true →
        (UpdateFragmentExecStatus s r).numRemainingBackends
            = s.numRemainingBackends - 1 ∧
        (UpdateFragmentExecStatus (UpdateFragmentExecStatus s r) r).numRemainingBackends
            = s.numRemainingBackends - 1) := by
  refine ⟨fun s r b hb hdone => ufes_done_eq hb hdone,
          fun s r b hb hdone hrdone => ?_⟩
  have h1 := ufes_numRemaining_of_notdone hb hdone hrdone
  refine ⟨h1, ?_⟩
  obtain ⟨b', hb', hd', _⟩ := ufes_find_after hb hdone
  rw [ufes_done_eq hb' (hrdone ▸ hd')]
  exact h1

/-- A concrete backend exec state that is already done, for witnesses. -/
def wbDone : BackendExecState :=
  { backendNum := 0, instanceId := 7, host := 1, fragmentIdx := 1,
    done := true, lastStatus := Status.ok, errorLog := [3], profile := 0,
    cancelRpcSent := false }

/-- A concrete backend exec state that is not yet done, for witnesses. -/
def wbOpen : BackendExecState := { wbDone with done := false, errorLog := [1] }

/-- A coordinator state holding one already-done backend, for witnesses. -/
def wsDone : CoordState := { emptyCoordState with backends := [wbDone] }

/-- A coordinator state holding one not-yet-done backend and two remaining
backends, for witnesses. -/
def wsOpen : CoordState :=
  { emptyCoordState with backends := [wbOpen], numRemainingBackends := 2 }

/-- A coordinator state that already returned all results, for witnesses. -/
def wsLate : CoordState :=
  { emptyCoordState with returnedAllResults := true, backends := [wbOpen] }

/-- A concrete successful done-report, for witnesses. -/
def wrOk : Report :=
  { instanceId := 7, rdone := true, rstatus := Status.ok, errs := [9],
    profile := 5, rows := [] }

/-- A concrete failed report, for witnesses. -/
def wrErr : Report :=
  { instanceId := 7, rdone := false, rstatus := Status.error 3, errs := [8],
    profile := 2, rows := [] }

theorem late_report_absorption_witness :
    (UpdateFragmentExecStatus wsDone wrOk =
      { wsDone with backends :=
          updateBackends wrOk.instanceId (appendErrLog wrOk.errs) wsDone.backends }) ∧
    ((UpdateFragmentExecStatus wsOpen wrOk).numRemainingBackends = 1 ∧
     (UpdateFragmentExecStatus (UpdateFragmentExecStatus wsOpen wrOk)
         wrOk).numRemainingBackends = 1) :=
  ⟨late_report_absorption.1 wsDone wrOk wbDone (by decide) (by decide),
   late_report_absorption.2 wsOpen wrOk wbOpen (by decide) (by decide) (by decide)⟩

/-- C6: late errors after success. Once `returned_all_results_` is set, a
non-OK status report from a remote fragment leaves `query_status_` and the
cancellation state unchanged, while its error log is still appended to the
backend's error-log accumulator. -/
theorem late_errors_after_success (s : CoordState) (r : Report)
    (b : BackendExecState)
    (hrar : s.returnedAllResults = true)
    (hb : s.backends.find? (fun x => x.instanceId == r.instanceId) = some b)
    (herr : r.rstatus.isOk = false) :
    (UpdateFragmentExecStatus s r).queryStatus = s.queryStatus ∧
    (UpdateFragmentExecStatus s r).cancelInitiated = s.cancelInitiated ∧
    ∃ b', (UpdateFragmentExecStatus s r).backends.find?
        (fun x => x.instanceId == r.instanceId) = some b' ∧
      b'.errorLog = b.errorLog ++ r.errs := by
  refine ⟨(ufes_rar_preserve r hrar).1, (ufes_rar_preserve r hrar).2, ?_⟩
  by_cases hd : b.done = true
  · exact ⟨appendErrLog r.errs b, ufes_find_after_done hb hd, rfl⟩
  · obtain ⟨b', h1, _, h3⟩ := ufes_find_after hb (by simpa using hd)
    exact ⟨b', h1, h3⟩

theorem late_errors_after_success_witness :
    (UpdateFragmentExecStatus wsLate wrErr).queryStatus = wsLate.queryStatus ∧
    (UpdateFragmentExecStatus wsLate wrErr).cancelInitiated
      = wsLate.cancelInitiated ∧
    ∃ b', (UpdateFragmentExecStatus wsLate wrErr).backends.find?
        (fun x => x.instanceId == wrErr.instanceId) = some b' ∧
      b'.errorLog = wbOpen.errorLog ++ wrErr.errs :=
  late_errors_after_success wsLate wrErr wbOpen (by decide) (by decide)
    (by decide)

lemma allDoneOrError_iff (s : CoordState) :
    allDoneOrError s = true ↔
      (s.numRemainingBackends = 0 ∨ s.queryStatus ≠ Status.ok) := by
  unfold allDoneOrError
  rw [Bool.or_eq_true]
  constructor
  · rintro (h | h)
    · exact Or.inl (by simpa using h)
    · exact Or.inr ((Status.isOk_false_iff _).mp (by simpa using h))
  · rintro (h | h)
    · exact Or.inl (by simp [h])
    · exact Or.inr (by simp [(Status.isOk_false_iff _).mpr h])

lemma wfabAux_returns_cond (s : CoordState) (rs : List Report) :
    (WaitForAllBackendsAux s rs).2 = true →
    allDoneOrError (WaitForAllBackendsAux s rs).1 = true := by
  induction rs generalizing s with
  | nil =>
    intro h
    simpa [WaitForAllBackendsAux] using h
  | cons r rest ih =>
    intro h
    rw [WaitForAllBackendsAux] at h ⊢
    by_cases hc : allDoneOrError s = true
    · rw [if_pos hc] at h ⊢
      exact hc
    · rw [if_neg hc] at h ⊢
      exact ih _ h

lemma wfab_returns_cond {s : CoordState} {rs : List Report}
    (h : (WaitForAllBackends s rs).2 = true) :
    (WaitForAllBackends s rs).1.numRemainingBackends = 0 ∨
      (WaitForAllBackends s rs).1.queryStatus ≠ Status.ok := by
  unfold WaitForAllBackends at *
  exact (allDoneOrError_iff _).mp (wfabAux_returns_cond _ _ h)

lemma wfabAux_returnedAllResults (s : CoordState) (rs : List Report) :
    (WaitForAllBackendsAux s rs).1.returnedAllResults = s.returnedAllResults := by
  induction rs generalizing s with
  | nil => rfl
  | cons r rest ih =>
    unfold WaitForAllBackendsAux
    split
    · rfl
    · rw [ih]
      exact (ufes_frame s r).1

@[simp] lemma wfab_returnedAllResults (s : CoordState) (rs : List Report) :
    (WaitForAllBackends s rs).1.returnedAllResults = s.returnedAllResults := by
  unfold WaitForAllBackends
  exact wfabAux_returnedAllResults _ rs

lemma updateStatus_queryStatus_err {s : CoordState} {st : Status}
    (hrar : s.returnedAllResults = false) (hst : st.isOk = false) :
    (UpdateStatus s st).1.queryStatus ≠ Status.ok := by
  unfold UpdateStatus CancelInternal
  dsimp only
  split_ifs with hcond
  · rcases Bool.or_eq_true_iff.mp hcond with hc | hc
    · rcases Bool.or_eq_true_iff.mp hc with hc | hc
      · rw [hrar] at hc
        simp at hc
      · rw [hst] at hc
        simp at hc
    · intro hq
      rw [hq] at hc
      simp [Status.isOk] at hc
  · exact (Status.isOk_false_iff _).mp hst

/-- C4: GetNext end-of-stream contract. GetNext returns a null batch only
once all backends have completed or the query is in error; and on root
executor end of stream it sets `returned_all_results_`, waits for all
remaining backends, runs `FinalizeQuery`, and returns the final
query status with a null batch. -/
theorem getNext_eos_contract (s : CoordState) (r : ExecResult)
    (rs : List Report) (s' : CoordState) (batch : Option Nat) (st : Status)
    (hrar : s.returnedAllResults = false)
    (herr : ∀ est, r = ExecResult.err est → est.isOk = false)
    (h : GetNext s r rs = (s', GetNextRes.returned batch st)) :
    (batch = none →
      (s'.numRemainingBackends = 0 ∨ s'.queryStatus ≠ Status.ok)) ∧
    (r = ExecResult.eos → s.hasRootFragment = true →
      s'.returnedAllResults = true ∧ s'.finalizeQueryCalled = true ∧
      s'.wfabCalls = s.wfabCalls + 1 ∧ batch = none ∧ st = s'.queryStatus) := by
  by_cases hroot : s.hasRootFragment = true
  · cases r with
    | batch n =>
      unfold GetNext at h
      rw [if_neg (by simp [hroot])] at h
      dsimp only at h
      injection h with h1 h2
      injection h2 with hb2 _
      constructor
      · intro hbn
        rw [← hb2] at hbn
        simp at hbn
      · intro hc
        exact absurd hc (by simp)
    | eos =>
      unfold GetNext at h
      rw [if_neg (by simp [hroot])] at h
      dsimp only at h
      by_cases hp : (WaitForAllBackends { s with returnedAllResults := true } rs).2 = true
      · rw [if_pos hp] at h
        injection h with h1 h2
        injection h2 with hb2 hst
        subst h1
        subst hb2
        subst hst
        have hcond := wfab_returns_cond hp
        refine ⟨fun _ => ?_, fun _ _ => ?_⟩
        · simpa [FinalizeQuery] using hcond
        · refine ⟨by simp [FinalizeQuery], rfl, by simp [FinalizeQuery], rfl, rfl⟩
      · rw [if_neg hp] at h
        injection h with _ h2
        exact absurd h2 (by simp)
    | err est =>
      unfold GetNext at h
      rw [if_neg (by simp [hroot])] at h
      dsimp only at h
      injection h with h1 h2
      injection h2 with hb2 hst
      subst h1
      subst hb2
      constructor
      · intro _
        exact Or.inr (updateStatus_queryStatus_err hrar (herr est rfl))
      · intro hc
        exact absurd hc (by simp)
  · unfold GetNext at h
    rw [if_pos (by simpa using hroot)] at h
    dsimp only at h
    by_cases hp : (WaitForAllBackends s rs).2 = true
    · rw [if_pos hp] at h
      injection h with h1 h2
      injection h2 with hb2 hst
      subst h1
      subst hb2
      subst hst
      refine ⟨fun _ => wfab_returns_cond hp, fun _ hc => absurd hc hroot⟩
    · rw [if_neg hp] at h
      injection h with _ h2
      exact absurd h2 (by simp)

theorem getNext_eos_contract_witness :
    ({ emptyCoordState with hasRootFragment := true } : CoordState).returnedAllResults
        = false ∧
    GetNext { emptyCoordState with hasRootFragment := true } ExecResult.eos [] =
      ((GetNext { emptyCoordState with hasRootFragment := true }
          ExecResult.eos []).1, GetNextRes.returned none Status.ok) ∧
    ((GetNext { emptyCoordState with hasRootFragment := true }
        ExecResult.eos []).1.returnedAllResults = true ∧
     (GetNext { emptyCoordState with hasRootFragment := true }
        ExecResult.eos []).1.finalizeQueryCalled = true ∧
     (GetNext { emptyCoordState with hasRootFragment := true }
        ExecResult.eos []).1.wfabCalls =
       ({ emptyCoordState with hasRootFragment := true } : CoordState).wfabCalls + 1 ∧
     (none : Option Nat) = none ∧
     Status.ok = (GetNext { emptyCoordState with hasRootFragment := true }
        ExecResult.eos []).1.queryStatus) :=
  ⟨rfl, by decide,
    (getNext_eos_contract { emptyCoordState with hasRootFragment := true }
        ExecResult.eos [] _ none Status.ok rfl
        (fun est hest => by cases hest) (by decide)).2 rfl rfl⟩

/-- C8: with a root fragment, the first Wait call returns as soon as the
root executor's blocking open completes: it never blocks, never calls
WaitForAllBackends, and leaves `num_remaining_backends_` untouched, so
remote backends may still be executing when it returns. -/
theorem wait_root_no_backend_wait (s : CoordState) (o : Status)
    (rs : List Report) (h1 : s.hasRootFragment = true)
    (h2 : s.hasCalledWait = false) :
    (Wait s o rs).2.isSome = true ∧
    (Wait s o rs).1.wfabCalls = s.wfabCalls ∧
    (Wait s o rs).1.numRemainingBackends = s.numRemainingBackends := by
  unfold Wait
  rw [if_neg (by simp [h2])]
  dsimp only
  rw [if_pos (by simpa using h1)]
  dsimp only
  split_ifs <;> exact ⟨rfl, by simp [FinalizeQuery], by simp [FinalizeQuery]⟩

/-- A coordinator state with a root fragment and two remote backends still
executing, for witnesses. -/
def wsRoot : CoordState :=
  { emptyCoordState with hasRootFragment := true, numRemainingBackends := 2 }

theorem wait_root_no_backend_wait_witness :
    wsRoot.hasRootFragment = true ∧
    wsRoot.hasCalledWait = false ∧
    ((Wait wsRoot Status.ok []).2.isSome = true ∧
     (Wait wsRoot Status.ok []).1.wfabCalls = wsRoot.wfabCalls ∧
     (Wait wsRoot Status.ok []).1.numRemainingBackends
       = wsRoot.numRemainingBackends) :=
  ⟨rfl, rfl, wait_root_no_backend_wait wsRoot Status.ok [] rfl rfl⟩

/-- C9: a request with no coordinator fragment and no distributed sinks is
rejected by Exec with an error before any start RPC is issued. -/
theorem exec_rejects_no_root_no_sinks (coordHost : Nat)
    (req : TQueryExecRequest) (ds : List Status)
    (h1 : hasCoordinatorFragment req = false)
    (h2 : hasDistributedSinks req = false) :
    (Exec coordHost req ds).1.isOk = false ∧
    (Exec coordHost req ds).2.startRpcs = [] := by
  unfold Exec
  rw [if_pos (by simp [h1, h2])]
  exact ⟨rfl, rfl⟩

/-- A partitioned, sink-free, scan-free fragment, for witnesses. -/
def wfragSolo : TPlanFragment :=
  { partitioned := true, hasSink := false, scanNodes := [],
    inputFragmentIdx := none }

/-- A request with a single partitioned, sink-free fragment (no coordinator
fragment, no distributed sink), for witnesses. -/
def wreqNoRoot : TQueryExecRequest :=
  { fragments := [wfragSolo], needsFinalization := false }

theorem exec_rejects_no_root_no_sinks_witness :
    hasCoordinatorFragment wreqNoRoot = false ∧
    hasDistributedSinks wreqNoRoot = false ∧
    ((Exec 0 wreqNoRoot []).1.isOk = false ∧
     (Exec 0 wreqNoRoot []).2.startRpcs = []) :=
  ⟨by decide, by decide, exec_rejects_no_root_no_sinks 0 wreqNoRoot []
    (by decide) (by decide)⟩

lemma length_mkStatesRow (bn fragIdx : Nat) (prs : List (Nat × Nat)) :
    (mkStatesRow bn fragIdx prs).length = prs.length := by
  induction prs generalizing bn with
  | nil => rfl
  | cons p rest ih =>
    cases p
    rw [mkStatesRow]
    simp [ih]

lemma length_mkBackendStates (bn fragIdx : Nat) (ps : List FragmentExecParams) :
    (mkBackendStates bn fragIdx ps).length =
      (ps.map (fun p => (p.hosts.zip p.instanceIds).length)).sum := by
  induction ps generalizing bn fragIdx with
  | nil => rfl
  | cons p rest ih =>
    rw [mkBackendStates]
    simp [List.length_append, length_mkStatesRow, ih]

lemma mkParams_ids_length (n : Nat) (hls : List (List Nat)) :
    ∀ p ∈ (mkParams n hls).1, p.instanceIds.length = p.hosts.length := by
  induction hls generalizing n with
  | nil => simp [mkParams]
  | cons hs rest ih =>
    intro p hp
    simp only [mkParams] at hp
    rcases List.mem_cons.mp hp with hp | hp
    · subst hp
      simp
    · exact ih _ p hp

lemma counts_core (ps : List FragmentExecParams)
    (h : ∀ p ∈ ps, p.instanceIds.length = p.hosts.length) (bn fi : Nat) :
    (mkBackendStates bn fi ps).length =
      (ps.map (fun p => p.instanceIds.length)).sum := by
  rw [length_mkBackendStates]
  refine congrArg List.sum (List.map_congr_left ?_)
  intro p hp
  rw [List.length_zip, h p hp, Nat.min_self]

lemma execOkState_counts (coordHost : Nat) (req : TQueryExecRequest)
    (asgs : List FragmentScanRangeAssignment) (nScan : Nat) :
    (execOkState coordHost req asgs nScan).numBackends
      = (execOkState coordHost req asgs nScan).backends.length := by
  unfold execOkState ComputeFragmentExecParams
  dsimp only
  by_cases hc : hasCoordinatorFragment req = true
  · simp only [hc, if_true]
    exact (counts_core _
      (fun p hp => mkParams_ids_length 0 _ p (List.drop_subset _ _ hp)) 0 1).symm
  · simp only [hc, if_false]
    exact (counts_core _ (mkParams_ids_length 0 _) 0 0).symm

lemma foldl_updateStatus_counts (s : CoordState) (ds : List Status) :
    (ds.foldl (fun s st => (UpdateStatus s st).1) s).numBackends
        = s.numBackends ∧
    (ds.foldl (fun s st => (UpdateStatus s st).1) s).backends.length
        = s.backends.length := by
  induction ds generalizing s with
  | nil => exact ⟨rfl, rfl⟩
  | cons d rest ih =>
    refine ⟨?_, ?_⟩
    · show (rest.foldl _ (UpdateStatus s d).1).numBackends = _
      rw [(ih (UpdateStatus s d).1).1]
      simp
    · show (rest.foldl _ (UpdateStatus s d).1).backends.length = _
      rw [(ih (UpdateStatus s d).1).2]
      simp

lemma step_counts (s : CoordState) (e : Event) :
    (step s e).numBackends = s.numBackends ∧
    (step s e).backends.length = s.backends.length := by
  cases e with
  | report r => exact ⟨(ufes_frame s r).2.2.2.2.1, (ufes_frame s r).2.2.2.2.2.1⟩
  | cancel =>
    constructor
    · show (UpdateStatus s _).1.numBackends = _
      simp
    · show (UpdateStatus s _).1.backends.length = _
      simp
  | wait o rs =>
    have : (Wait s o rs).1.numBackends = s.numBackends ∧
        (Wait s o rs).1.backends.length = s.backends.length := by
      unfold Wait
      dsimp only
      split_ifs <;>
        exact ⟨by simp [FinalizeQuery], by simp [FinalizeQuery]⟩
    exact this
  | getNext r rs =>
    have : (GetNext s r rs).1.numBackends = s.numBackends ∧
        (GetNext s r rs).1.backends.length = s.backends.length := by
      cases r <;>
        · unfold GetNext
          dsimp only
          split_ifs <;>
            exact ⟨by simp [FinalizeQuery], by simp [FinalizeQuery]⟩
    exact this

lemma run_counts (s : CoordState) (tr : List Event) :
    (run s tr).numBackends = s.numBackends ∧
    (run s tr).backends.length = s.backends.length := by
  induction tr generalizing s with
  | nil => exact ⟨rfl, rfl⟩
  | cons e rest ih =>
    refine ⟨?_, ?_⟩
    · show (run (step s e) rest).numBackends = _
      rw [(ih (step s e)).1, (step_counts s e).1]
    · show (run (step s e) rest).backends.length = _
      rw [(ih (step s e)).2, (step_counts s e).2]

/-- C10: after Exec returns OK, `num_backends_` (set in
ComputeFragmentExecParams) equals the number of backend exec states (one
per dispatched remote fragment instance), and every subsequent operation
preserves this equality. -/
theorem num_backends_matches_exec_states (coordHost : Nat)
    (req : TQueryExecRequest) (ds : List Status)
    (hok : (Exec coordHost req ds).1 = Status.ok) :
    (Exec coordHost req ds).2.numBackends
      = (Exec coordHost req ds).2.backends.length ∧
    ∀ tr, (run (Exec coordHost req ds).2 tr).numBackends
        = (run (Exec coordHost req ds).2 tr).backends.length := by
  have hbase : (Exec coordHost req ds).2.numBackends
      = (Exec coordHost req ds).2.backends.length := by
    unfold Exec
    split_ifs
    · rfl
    · split
      · rfl
      · dsimp only
        rw [(foldl_updateStatus_counts _ ds).1,
            (foldl_updateStatus_counts _ ds).2, execOkState_counts]
  refine ⟨hbase, fun tr => ?_⟩
  rw [(run_counts _ tr).1, (run_counts _ tr).2, hbase]

/-- The root (coordinator) fragment of the witness request. -/
def wfragRoot : TPlanFragment :=
  { partitioned := false, hasSink := false, scanNodes := [],
    inputFragmentIdx := none }

/-- A scan range with two candidate hosts, for witnesses. -/
def wloc1 : TScanRangeLocations :=
  { scanRange := 100, locations := [(1, 0), (2, 0)], numBytes := 10 }

/-- A scan range with one candidate host, for witnesses. -/
def wloc2 : TScanRangeLocations :=
  { scanRange := 101, locations := [(2, 0)], numBytes := 20 }

/-- A scan node with two scan ranges over two candidate hosts, for
witnesses. -/
def wscan : ScanNodeInput :=
  { nodeId := 0, locations := [wloc1, wloc2] }

/-- A partitioned scan fragment of the witness request. -/
def wfragScan : TPlanFragment :=
  { partitioned := true, hasSink := false, scanNodes := [wscan],
    inputFragmentIdx := none }

/-- A witness request: root fragment plus one scan fragment. -/
def wreq : TQueryExecRequest :=
  { fragments := [wfragRoot, wfragScan], needsFinalization := false }

theorem num_backends_matches_exec_states_witness :
    (Exec 0 wreq []).1 = Status.ok ∧
    ((Exec 0 wreq []).2.numBackends = (Exec 0 wreq []).2.backends.length ∧
     (run (Exec 0 wreq []).2 [Event.cancel]).numBackends
       = (run (Exec 0 wreq []).2 [Event.cancel]).backends.length) :=
  ⟨by decide, (num_backends_matches_exec_states 0 wreq [] (by decide)).1,
   (num_backends_matches_exec_states 0 wreq [] (by decide)).2 [Event.cancel]⟩

lemma nodeRangesList_addToNode (nodeId rng : Nat) (pns : PerNodeScanRanges) :
    List.Perm (nodeRangesList (addToNode nodeId rng pns))
      ((nodeId, rng) :: nodeRangesList pns) := by
  induction pns with
  | nil => simp [addToNode, nodeRangesList]
  | cons p rest ih =>
    obtain ⟨n, rs⟩ := p
    by_cases hn : (n == nodeId) = true
    · rw [addToNode, if_pos hn]
      have hn' : n = nodeId := by simpa using hn
      subst hn'
      simp only [nodeRangesList, List.map_cons, List.flatten_cons,
        List.map_append, List.map_cons, List.map_nil]
      simpa using List.perm_middle
    · rw [addToNode, if_neg hn]
      simp only [nodeRangesList, List.map_cons, List.flatten_cons]
      exact (List.Perm.append_left _ ih).trans List.perm_middle.symm.symm

lemma allRanges_addAssignment (host nodeId rng : Nat)
    (a : FragmentScanRangeAssignment) :
    List.Perm (allRanges (addAssignment host nodeId rng a))
      ((nodeId, rng) :: allRanges a) := by
  induction a with
  | nil => simp [addAssignment, allRanges, nodeRangesList, addToNode]
  | cons p rest ih =>
    obtain ⟨h, pns⟩ := p
    by_cases hh : (h == host) = true
    · rw [addAssignment, if_pos hh]
      simp only [allRanges, List.map_cons, List.flatten_cons]
      exact (List.Perm.append_right _ (nodeRangesList_addToNode nodeId rng pns))
    · rw [addAssignment, if_neg hh]
      simp only [allRanges, List.map_cons, List.flatten_cons]
      exact (List.Perm.append_left _ ih).trans List.perm_middle

lemma assignNode_perm (coordHost : Nat) (ex : Bool) (nodeId : Nat)
    (locs : List TScanRangeLocations) (tbl : List (Nat × Nat))
    (a : FragmentScanRangeAssignment)
    (p : FragmentScanRangeAssignment × List (Nat × Nat))
    (h : assignNode coordHost ex nodeId locs tbl a = .ok p) :
    List.Perm (allRanges p.1)
      (locs.map (fun l => (nodeId, l.scanRange)) ++ allRanges a) := by
  induction locs generalizing tbl a with
  | nil =>
    simp only [assignNode, Except.ok.injEq] at h
    subst h
    simp
  | cons l rest ih =>
    rw [assignNode] at h
    split at h
    · exact absurd h (by simp)
    case h_2 hst heq =>
      have hrec := ih (addBytes hst l.numBytes tbl)
        (addAssignment hst nodeId l.scanRange a) h
      refine hrec.trans ?_
      refine (List.Perm.append_left _
        (allRanges_addAssignment hst nodeId l.scanRange a)).trans ?_
      simpa using List.perm_middle

lemma assignFragment_perm (coordHost : Nat) (ex : Bool)
    (nodes : List ScanNodeInput) (a a' : FragmentScanRangeAssignment)
    (h : assignFragment coordHost ex nodes a = .ok a') :
    List.Perm (allRanges a') (taggedOf nodes ++ allRanges a) := by
  induction nodes generalizing a with
  | nil =>
    simp only [assignFragment, Except.ok.injEq] at h
    subst h
    simp [taggedOf]
  | cons nd rest ih =>
    rw [assignFragment] at h
    split at h
    · exact absurd h (by simp)
    case h_2 q heq =>
      have h2 := assignNode_perm coordHost ex nd.nodeId nd.locations [] a q heq
      refine (ih q.1 h).trans ?_
      refine (List.Perm.append_left _ h2).trans ?_
      simp only [taggedOf, List.map_cons, List.flatten_cons, List.append_assoc]
      exact List.perm_append_comm_assoc _ _ _

lemma filterMap_tag_pos {nodeId nid : Nat} (hn : (nid == nodeId) = true)
    (locs : List TScanRangeLocations) :
    (locs.map (fun l => (nid, l.scanRange))).filterMap
        (fun q => if q.1 == nodeId then some q.2 else none) =
      locs.map (·.scanRange) := by
  induction locs with
  | nil => rfl
  | cons l rest ih =>
    rw [List.map_cons, List.filterMap_cons]
    simpa [hn] using ih

lemma filterMap_tag_neg {nodeId nid : Nat} (hn : (nid == nodeId) = false)
    (locs : List TScanRangeLocations) :
    (locs.map (fun l => (nid, l.scanRange))).filterMap
        (fun q => if q.1 == nodeId then some q.2 else none) = [] := by
  induction locs with
  | nil => rfl
  | cons l rest ih =>
    rw [List.map_cons, List.filterMap_cons]
    simpa [hn] using ih

lemma filterMap_taggedOf (nodes : List ScanNodeInput) (nodeId : Nat) :
    (taggedOf nodes).filterMap
        (fun q => if q.1 == nodeId then some q.2 else none) =
      (nodes.map (fun nd =>
        if nd.nodeId == nodeId then nd.locations.map (·.scanRange)
        else [])).flatten := by
  induction nodes with
  | nil => rfl
  | cons nd rest ih =>
    simp only [taggedOf, List.map_cons, List.flatten_cons,
      List.filterMap_append] at *
    rw [ih]
    congr 1
    by_cases hn : (nd.nodeId == nodeId) = true
    · rw [if_pos hn]
      exact filterMap_tag_pos hn nd.locations
    · rw [if_neg hn]
      exact filterMap_tag_neg (by simpa using hn) nd.locations

lemma csra_spec (coordHost : Nat) (frags : List TPlanFragment)
    (asgs : List FragmentScanRangeAssignment) (n : Nat)
    (h : ComputeScanRangeAssignment coordHost frags = .ok (asgs, n)) :
    asgs.length = frags.length ∧
    n = (frags.map countFragmentRanges).sum ∧
    ∀ (i : Nat) a f, asgs[i]? = some a → frags[i]? = some f →
      List.Perm (allRanges a) (taggedInput f) := by
  induction frags generalizing asgs n with
  | nil =>
    simp only [ComputeScanRangeAssignment, Except.ok.injEq, Prod.mk.injEq] at h
    obtain ⟨h1, h2⟩ := h
    subst h1
    subst h2
    refine ⟨rfl, rfl, fun i a f ha _ => ?_⟩
    simp at ha
  | cons f rest ih =>
    rw [ComputeScanRangeAssignment] at h
    split at h
    · exact absurd h (by simp)
    case h_2 af heqf =>
      split at h
      · exact absurd h (by simp)
      case h_2 q heqr =>
        simp only [Except.ok.injEq, Prod.mk.injEq] at h
        obtain ⟨h1, h2⟩ := h
        subst h1
        subst h2
        obtain ⟨ihl, ihn, ihp⟩ := ih q.1 q.2 heqr
        refine ⟨by simp [ihl], by simp [ihn], fun i a g ha hg => ?_⟩
        cases i with
        | zero =>
          rw [List.getElem?_cons_zero] at ha hg
          injection ha with ha
          injection hg with hg
          have hpm := assignFragment_perm coordHost (!f.partitioned)
            f.scanNodes [] af heqf
          rw [← ha, ← hg]
          simpa [taggedInput, allRanges] using hpm
        | succ j =>
          rw [List.getElem?_cons_succ] at ha hg
          exact ihp j a g ha hg

/-- C3: scan-range conservation. When `ComputeScanRangeAssignment`
succeeds, for every fragment the multiset of (scan node, scan range)
assignments across hosts is exactly the fragment's input scan-range set —
every range of every scan node is assigned to exactly one host and the
per-node union of per-host assignments equals that node's input — and
`num_scan_ranges_` is the global total of input scan ranges. -/
theorem scan_range_conservation (coordHost : Nat) (frags : List TPlanFragment)
    (asgs : List FragmentScanRangeAssignment) (n : Nat)
    (h : ComputeScanRangeAssignment coordHost frags = .ok (asgs, n)) :
    asgs.length = frags.length ∧
    n = (frags.map countFragmentRanges).sum ∧
    ∀ (i : Nat) a f, asgs[i]? = some a → frags[i]? = some f →
      (List.Perm (allRanges a) (taggedInput f) ∧
       ∀ nodeId, List.Perm (rangesForNode a nodeId)
         (nodeInputRanges f nodeId)) := by
  obtain ⟨h1, h2, h3⟩ := csra_spec coordHost frags asgs n h
  refine ⟨h1, h2, fun i a f ha hf => ⟨h3 i a f ha hf, fun nodeId => ?_⟩⟩
  have hperm := (h3 i a f ha hf).filterMap
    (fun q => if q.1 == nodeId then some q.2 else none)
  unfold rangesForNode
  refine hperm.trans ?_
  rw [taggedInput, filterMap_taggedOf]
  rfl

/-- The scan-range assignment that `ComputeScanRangeAssignment` produces on
the witness request. -/
def wasg : List FragmentScanRangeAssignment :=
  [[], [(1, [(0, [100])]), (2, [(0, [101])])]]

theorem scan_range_conservation_witness :
    ComputeScanRangeAssignment 0 wreq.fragments = Except.ok (wasg, 2) ∧
    (wasg.length = wreq.fragments.length ∧
     (2 : Nat) = (wreq.fragments.map countFragmentRanges).sum ∧
     ∀ (i : Nat) a f, wasg[i]? = some a → wreq.fragments[i]? = some f →
       (List.Perm (allRanges a) (taggedInput f) ∧
        ∀ nodeId, List.Perm (rangesForNode a nodeId)
          (nodeInputRanges f nodeId))) :=
  ⟨by rfl, scan_range_conservation 0 wreq.fragments wasg 2 (by rfl)⟩

end Impala
